import Mathlib

/-!
Verification of the FastAnalogRead responsive analog filter
(`src/FastAnalogRead.cpp`).

The filter keeps a smoothed estimate of a noisy analog signal, adapting its
responsiveness via a nonlinear snap curve, with an error estimator driving an
optional sleep mode and an optional edge-snap adjustment.

The companion header declaring the `FastAnalogFixed` arithmetic type and the
field layout is not part of the sources at hand, so the arithmetic type is
modelled from the spec: `FastAnalogFixed` values are exact rational numbers
(the spec calls them real numbers and leaves the representation free), and
`getInteger` is truncation toward zero as the spec's truncation-semantics
note requires.
-/

/-- Modelled from the spec: `FastAnalogFixed.getInteger` from the missing
header, converting the fixed-point value to an integer by truncation toward
zero (not rounding). -/
def fixedGetInteger (x : ℚ) : ℤ :=
  if 0 ≤ x then ((x.num.toNat / x.den : ℕ) : ℤ)
  else -(((-x).num.toNat / (-x).den : ℕ) : ℤ)

/-- Modelled from the spec: the filter's state and configuration fields,
named as the implementation file uses them (their declarations live in the
missing header; types follow the spec's data model, with `FastAnalogFixed`
fields as rationals).  The hardware pin is outside the algorithm and is
omitted. -/
structure FastAnalogRead where
  sleepEnable : Bool
  edgeSnapEnable : Bool
  activityThreshold : ℤ
  analogResolution : ℤ
  snapMultiplier : ℚ
  smoothValue : ℚ
  errorEMA : ℚ
  sleeping : Bool
  rawValue : ℕ
  responsiveValue : ℤ
  prevResponsiveValue : ℤ
  responsiveValueHasChanged : Bool
  deriving DecidableEq

/-- The snap curve: `y = 1/(x+1); y = (1-y)*2; return y > 1 ? 1 : y`. -/
def snapCurve (x : ℚ) : ℚ :=
  let y : ℚ := 1 / (x + 1)
  let y2 : ℚ := (1 - y) * 2
  if y2 > 1 then 1 else y2

/-- The edge-snap adjustment at the top of `getResponsiveValue`: when sleep
and edge snap are both enabled and the value is close to an edge, drag it a
little closer to the edge. -/
def edgeSnapValue (s : FastAnalogRead) (newValue : ℚ) : ℚ :=
  if s.sleepEnable && s.edgeSnapEnable then
    if newValue < (s.activityThreshold : ℚ) then
      newValue - (s.activityThreshold : ℚ) + newValue
    else if newValue > (s.analogResolution : ℚ) - (s.activityThreshold : ℚ) then
      newValue + (s.activityThreshold : ℚ) - (s.analogResolution : ℚ) + newValue
    else newValue
  else newValue

/-- The integer-truncated deviation `diff` between the (edge-snapped) new
value and the current smooth value. -/
def diffOf (s : FastAnalogRead) (nv : ℚ) : ℤ :=
  if nv > s.smoothValue then fixedGetInteger (nv - s.smoothValue)
  else fixedGetInteger (s.smoothValue - nv)

/-- The error estimator update
`errorEMA += ((newValue - smoothValue) - errorEMA) * 0.4`. -/
def errorEMANext (s : FastAnalogRead) (nv : ℚ) : ℚ :=
  s.errorEMA + ((nv - s.smoothValue) - s.errorEMA) * (2 / 5)

/-- The recalculated sleeping flag: when sleep is enabled,
`sleeping = abs(errorEMA) < activityThreshold` with the just-updated
`errorEMA`; otherwise the flag is left as it was. -/
def sleepingNext (s : FastAnalogRead) (nv : ℚ) : Bool :=
  if s.sleepEnable then decide (|errorEMANext s nv| < (s.activityThreshold : ℚ))
  else s.sleeping

/-- The smoothing update and clamp:
`smoothValue += (newValue - smoothValue) * snapCurve(diff * snapMultiplier)`
followed by clamping into `[0, analogResolution - 1]`. -/
def smoothNext (s : FastAnalogRead) (nv : ℚ) : ℚ :=
  let snap : ℚ := snapCurve ((diffOf s nv : ℚ) * s.snapMultiplier)
  let sm : ℚ := s.smoothValue + (nv - s.smoothValue) * snap
  if sm < 0 then 0
  else if sm > (s.analogResolution : ℚ) - 1 then (s.analogResolution : ℚ) - 1
  else sm

/-- `FastAnalogRead::getResponsiveValue`: edge snap, deviation, error
estimator, sleep decision (returning the untouched smooth value when
sleeping), else the snap-curve smoothing update with clamp.  Returns the
mutated state together with the returned integer. -/
def getResponsiveValue (s : FastAnalogRead) (newValue : ℚ) : FastAnalogRead × ℤ :=
  let nv : ℚ := edgeSnapValue s newValue
  if s.sleepEnable && sleepingNext s nv then
    ({ s with errorEMA := errorEMANext s nv, sleeping := sleepingNext s nv },
     fixedGetInteger s.smoothValue)
  else
    ({ s with errorEMA := errorEMANext s nv, sleeping := sleepingNext s nv,
              smoothValue := smoothNext s nv },
     fixedGetInteger (smoothNext s nv))

/-- `FastAnalogRead::update(uint16_t)`: store the raw value (a 16-bit
unsigned argument, hence the reduction modulo 2^16), remember the previous
output, run `getResponsiveValue`, and recompute the changed flag. -/
def update (s : FastAnalogRead) (raw : ℕ) : FastAnalogRead :=
  let r : ℕ := raw % 65536
  let p := getResponsiveValue s (r : ℚ)
  { p.1 with rawValue := r,
             prevResponsiveValue := s.responsiveValue,
             responsiveValue := p.2,
             responsiveValueHasChanged := decide (p.2 ≠ s.responsiveValue) }

/-- `FastAnalogRead::setSnapMultiplier`: clamp the new multiplier into
`[0, 1]` and store it. -/
def setSnapMultiplier (s : FastAnalogRead) (newMultiplier : ℚ) : FastAnalogRead :=
  if newMultiplier > 1 then { s with snapMultiplier := 1 }
  else if newMultiplier < 0 then { s with snapMultiplier := 0 }
  else { s with snapMultiplier := newMultiplier }

/-- Running the filter over a whole list of raw samples. -/
def run (s : FastAnalogRead) (raws : List ℕ) : FastAnalogRead :=
  raws.foldl update s

/-- The value `update` actually feeds to `getResponsiveValue` for a raw
argument, after the 16-bit reduction. -/
def rawIn (raw : ℕ) : ℚ := ((raw % 65536 : ℕ) : ℚ)

/-- The sleep condition of a given call: the freshly updated error estimate
is below the activity threshold in magnitude (evaluated on the possibly
edge-snapped input). -/
def sleepCondB (s : FastAnalogRead) (raw : ℕ) : Bool :=
  decide (|errorEMANext s (edgeSnapValue s (rawIn raw))| < (s.activityThreshold : ℚ))

/-- Every call of a sample sequence satisfies the sleep condition at the
state it is run from. -/
def allSleep (s : FastAnalogRead) : List ℕ → Bool
  | [] => true
  | r :: rs => sleepCondB s r && allSleep (update s r) rs

/-! ### Helper lemmas about the truncation -/

lemma fixedGetInteger_of_nonneg {x : ℚ} (h : 0 ≤ x) : fixedGetInteger x = ⌊x⌋ := by
  have hnum : (0 : ℤ) ≤ x.num := Rat.num_nonneg.mpr h
  rw [fixedGetInteger, if_pos h, Int.natCast_div, Int.toNat_of_nonneg hnum, Rat.floor_def]

lemma fixedGetInteger_nonneg {x : ℚ} (h : 0 ≤ x) : 0 ≤ fixedGetInteger x := by
  rw [fixedGetInteger_of_nonneg h]
  exact Int.floor_nonneg.mpr h

lemma fixedGetInteger_eq_zero {x : ℚ} (h0 : 0 ≤ x) (h1 : x < 1) : fixedGetInteger x = 0 := by
  rw [fixedGetInteger_of_nonneg h0]
  exact Int.floor_eq_zero_iff.mpr ⟨h0, h1⟩

lemma one_le_fixedGetInteger {x : ℚ} (h : 1 ≤ x) : 1 ≤ fixedGetInteger x := by
  rw [fixedGetInteger_of_nonneg (le_trans zero_le_one h)]
  exact Int.le_floor.mpr (by exact_mod_cast h)

/-! ### Helper lemmas about the snap curve -/

lemma snapCurve_eq_min (x : ℚ) : snapCurve x = min ((1 - 1 / (x + 1)) * 2) 1 := by
  simp only [snapCurve]
  split
  · next h => exact (min_eq_right (le_of_lt h)).symm
  · next h => exact (min_eq_left (not_lt.mp h)).symm

lemma snapCurve_zero : snapCurve 0 = 0 := by norm_num [snapCurve]

lemma snapCurve_nonneg {x : ℚ} (h : 0 ≤ x) : 0 ≤ snapCurve x := by
  rw [snapCurve_eq_min]
  have hx1 : (0 : ℚ) < x + 1 := by linarith
  have h1 : 1 / (x + 1) ≤ 1 := by
    rw [div_le_one hx1]; linarith
  exact le_min (by linarith) (by norm_num)

lemma snapCurve_le_one (x : ℚ) : snapCurve x ≤ 1 := by
  rw [snapCurve_eq_min]
  exact min_le_right _ _

lemma snapCurve_mono {a b : ℚ} (ha : 0 ≤ a) (hab : a ≤ b) : snapCurve a ≤ snapCurve b := by
  rw [snapCurve_eq_min, snapCurve_eq_min]
  have h1 : (0 : ℚ) < a + 1 := by linarith
  have h2 : 1 / (b + 1) ≤ 1 / (a + 1) := one_div_le_one_div_of_le h1 (by linarith)
  exact min_le_min (by linarith) le_rfl

lemma snapCurve_pos {x : ℚ} (h : 0 < x) : 0 < snapCurve x := by
  rw [snapCurve_eq_min]
  have hx1 : (0 : ℚ) < x + 1 := by linarith
  have h1 : 1 / (x + 1) < 1 := by
    rw [div_lt_one hx1]; linarith
  exact lt_min (by linarith) (by norm_num)

lemma snapCurve_eq_one_iff {x : ℚ} (h : 0 ≤ x) : snapCurve x = 1 ↔ 1 ≤ x := by
  rw [snapCurve_eq_min]
  have hx1 : (0 : ℚ) < x + 1 := by linarith
  constructor
  · intro hmin
    have h1 : (1 : ℚ) ≤ (1 - 1 / (x + 1)) * 2 := min_eq_right_iff.mp hmin
    have h2 : 1 / (x + 1) ≤ 1 / 2 := by linarith
    have h3 : (1 : ℚ) * 2 ≤ 1 * (x + 1) := (div_le_div_iff₀ hx1 (by norm_num)).mp h2
    linarith
  · intro hx
    have h2 : 1 / (x + 1) ≤ 1 / 2 := one_div_le_one_div_of_le (by norm_num) (by linarith)
    exact min_eq_right (by linarith)

/-! ### Helper lemmas about the truncated deviation -/

lemma diffOf_eq_trunc_abs (s : FastAnalogRead) (nv : ℚ) :
    diffOf s nv = fixedGetInteger |nv - s.smoothValue| := by
  unfold diffOf
  split
  · next h => rw [abs_of_pos (by linarith)]
  · next h =>
    rw [abs_of_nonpos (by linarith [not_lt.mp h])]
    ring_nf

lemma diffOf_nonneg (s : FastAnalogRead) (nv : ℚ) : 0 ≤ diffOf s nv := by
  rw [diffOf_eq_trunc_abs]
  exact fixedGetInteger_nonneg (abs_nonneg _)

lemma diffOf_eq_zero {s : FastAnalogRead} {nv : ℚ} (h : |nv - s.smoothValue| < 1) :
    diffOf s nv = 0 := by
  rw [diffOf_eq_trunc_abs]
  exact fixedGetInteger_eq_zero (abs_nonneg _) h

lemma one_le_diffOf {s : FastAnalogRead} {nv : ℚ} (h : 1 ≤ |nv - s.smoothValue|) :
    1 ≤ diffOf s nv := by
  rw [diffOf_eq_trunc_abs]
  exact one_le_fixedGetInteger h

/-! ### Case analysis of one update call -/

lemma getResponsiveValue_eq_sleep {s : FastAnalogRead} {nv : ℚ}
    (h : (s.sleepEnable && sleepingNext s (edgeSnapValue s nv)) = true) :
    getResponsiveValue s nv =
      ({ s with errorEMA := errorEMANext s (edgeSnapValue s nv),
                sleeping := sleepingNext s (edgeSnapValue s nv) },
       fixedGetInteger s.smoothValue) := by
  simp only [getResponsiveValue]
  rw [if_pos h]

lemma getResponsiveValue_eq_awake {s : FastAnalogRead} {nv : ℚ}
    (h : (s.sleepEnable && sleepingNext s (edgeSnapValue s nv)) = false) :
    getResponsiveValue s nv =
      ({ s with errorEMA := errorEMANext s (edgeSnapValue s nv),
                sleeping := sleepingNext s (edgeSnapValue s nv),
                smoothValue := smoothNext s (edgeSnapValue s nv) },
       fixedGetInteger (smoothNext s (edgeSnapValue s nv))) := by
  simp only [getResponsiveValue]
  rw [if_neg (by simp [h])]

lemma update_eq (s : FastAnalogRead) (raw : ℕ) :
    update s raw =
      { (getResponsiveValue s (rawIn raw)).1 with
          rawValue := raw % 65536,
          prevResponsiveValue := s.responsiveValue,
          responsiveValue := (getResponsiveValue s (rawIn raw)).2,
          responsiveValueHasChanged :=
            decide ((getResponsiveValue s (rawIn raw)).2 ≠ s.responsiveValue) } := by
  simp only [update, rawIn]

lemma update_sleepEnable (s : FastAnalogRead) (raw : ℕ) :
    (update s raw).sleepEnable = s.sleepEnable := by
  rw [update_eq]
  simp only [getResponsiveValue]
  split <;> rfl

lemma update_edgeSnapEnable (s : FastAnalogRead) (raw : ℕ) :
    (update s raw).edgeSnapEnable = s.edgeSnapEnable := by
  rw [update_eq]
  simp only [getResponsiveValue]
  split <;> rfl

lemma update_activityThreshold (s : FastAnalogRead) (raw : ℕ) :
    (update s raw).activityThreshold = s.activityThreshold := by
  rw [update_eq]
  simp only [getResponsiveValue]
  split <;> rfl

lemma update_analogResolution (s : FastAnalogRead) (raw : ℕ) :
    (update s raw).analogResolution = s.analogResolution := by
  rw [update_eq]
  simp only [getResponsiveValue]
  split <;> rfl

lemma update_snapMultiplier (s : FastAnalogRead) (raw : ℕ) :
    (update s raw).snapMultiplier = s.snapMultiplier := by
  rw [update_eq]
  simp only [getResponsiveValue]
  split <;> rfl

lemma update_errorEMA (s : FastAnalogRead) (raw : ℕ) :
    (update s raw).errorEMA = errorEMANext s (edgeSnapValue s (rawIn raw)) := by
  rw [update_eq]
  simp only [getResponsiveValue]
  split <;> rfl

lemma update_sleeping (s : FastAnalogRead) (raw : ℕ) :
    (update s raw).sleeping = sleepingNext s (edgeSnapValue s (rawIn raw)) := by
  rw [update_eq]
  simp only [getResponsiveValue]
  split <;> rfl

lemma update_prevResponsiveValue (s : FastAnalogRead) (raw : ℕ) :
    (update s raw).prevResponsiveValue = s.responsiveValue := by
  rw [update_eq]

lemma update_responsiveValue_eq (s : FastAnalogRead) (raw : ℕ) :
    (update s raw).responsiveValue = (getResponsiveValue s (rawIn raw)).2 := by
  rw [update_eq]

lemma update_responsiveValueHasChanged (s : FastAnalogRead) (raw : ℕ) :
    (update s raw).responsiveValueHasChanged =
      decide ((update s raw).responsiveValue ≠ s.responsiveValue) := by
  rw [update_eq]

lemma update_smoothValue_sleep {s : FastAnalogRead} {raw : ℕ}
    (h : (s.sleepEnable && sleepingNext s (edgeSnapValue s (rawIn raw))) = true) :
    (update s raw).smoothValue = s.smoothValue := by
  rw [update_eq, getResponsiveValue_eq_sleep h]

lemma update_responsiveValue_sleep {s : FastAnalogRead} {raw : ℕ}
    (h : (s.sleepEnable && sleepingNext s (edgeSnapValue s (rawIn raw))) = true) :
    (update s raw).responsiveValue = fixedGetInteger s.smoothValue := by
  rw [update_eq, getResponsiveValue_eq_sleep h]

lemma update_smoothValue_awake {s : FastAnalogRead} {raw : ℕ}
    (h : (s.sleepEnable && sleepingNext s (edgeSnapValue s (rawIn raw))) = false) :
    (update s raw).smoothValue = smoothNext s (edgeSnapValue s (rawIn raw)) := by
  rw [update_eq, getResponsiveValue_eq_awake h]

lemma update_responsiveValue_awake {s : FastAnalogRead} {raw : ℕ}
    (h : (s.sleepEnable && sleepingNext s (edgeSnapValue s (rawIn raw))) = false) :
    (update s raw).responsiveValue = fixedGetInteger (smoothNext s (edgeSnapValue s (rawIn raw))) := by
  rw [update_eq, getResponsiveValue_eq_awake h]

lemma edgeSnapValue_of_sleep_disabled {s : FastAnalogRead} (h : s.sleepEnable = false)
    (nv : ℚ) : edgeSnapValue s nv = nv := by
  simp [edgeSnapValue, h]

lemma gate_false_of_sleep_disabled {s : FastAnalogRead} (h : s.sleepEnable = false) (nv : ℚ) :
    (s.sleepEnable && sleepingNext s nv) = false := by
  simp [h]

/-! ### Claim C3: the snap curve -/

/-- C3: for every x >= 0, snapCurve(x) equals min((1 - 1/(x+1)) * 2, 1); in
particular snapCurve(0) = 0 and snapCurve(x) = 1 exactly for every x >= 1. -/
theorem snapCurve_spec :
    (∀ x : ℚ, 0 ≤ x → snapCurve x = min ((1 - 1 / (x + 1)) * 2) 1) ∧
    snapCurve 0 = 0 ∧
    (∀ x : ℚ, 0 ≤ x → (snapCurve x = 1 ↔ 1 ≤ x)) :=
  ⟨fun x _ => snapCurve_eq_min x, snapCurve_zero, fun _ hx => snapCurve_eq_one_iff hx⟩

/-- Witness for C3 at the concrete input x = 3. -/
theorem snapCurve_spec_witness :
    snapCurve 3 = min ((1 - 1 / (3 + 1)) * 2) 1 ∧ (snapCurve 3 = 1 ↔ 1 ≤ (3 : ℚ)) :=
  ⟨snapCurve_spec.1 3 (by norm_num), snapCurve_spec.2.2 3 (by norm_num)⟩

/-! ### Claim C5: the error estimator -/

/-- C5: on every update call, sleeping ones included, errorEMA is replaced by
errorEMA + 0.4 * ((newValue - smoothValue) - errorEMA) with newValue the
possibly edge-snapped input and smoothValue the pre-update smooth value, and
the sleep decision is evaluated on the freshly assigned errorEMA. -/
theorem errorEMA_always_updated :
    ∀ (s : FastAnalogRead) (raw : ℕ),
      (update s raw).errorEMA =
        s.errorEMA + (2 / 5) * ((edgeSnapValue s (rawIn raw) - s.smoothValue) - s.errorEMA) ∧
      (s.sleepEnable = true →
        ((update s raw).sleeping = true ↔
          |(update s raw).errorEMA| < (s.activityThreshold : ℚ))) := by
  intro s raw
  have h1 : (update s raw).errorEMA = errorEMANext s (edgeSnapValue s (rawIn raw)) :=
    update_errorEMA s raw
  constructor
  · rw [h1, errorEMANext]; ring
  · intro hS
    rw [update_sleeping, h1]
    simp only [sleepingNext]
    rw [if_pos hS]
    exact decide_eq_true_iff

/-- Witness for C5 at a concrete sleep-enabled state and raw sample. -/
def c5state : FastAnalogRead :=
  { sleepEnable := true, edgeSnapEnable := false, activityThreshold := 5,
    analogResolution := 1024, snapMultiplier := 1/2, smoothValue := 100,
    errorEMA := 0, sleeping := false, rawValue := 0, responsiveValue := 100,
    prevResponsiveValue := 100, responsiveValueHasChanged := false }

theorem errorEMA_always_updated_witness :
    (update c5state 103).errorEMA =
      c5state.errorEMA +
        (2 / 5) * ((edgeSnapValue c5state (rawIn 103) - c5state.smoothValue) - c5state.errorEMA) ∧
    ((update c5state 103).sleeping = true ↔
      |(update c5state 103).errorEMA| < (c5state.activityThreshold : ℚ)) :=
  ⟨(errorEMA_always_updated c5state 103).1, (errorEMA_always_updated c5state 103).2 rfl⟩

/-! ### Claim C6: the edge snap -/

/-- C6: with sleep and edge snap both enabled, a value within
activityThreshold of the low boundary becomes 2 * value - activityThreshold,
one within activityThreshold of the high boundary becomes
2 * value + activityThreshold - analogResolution, and any other value, or any
value when either flag is off, is used unmodified. -/
theorem edgeSnap_characterization :
    ∀ (s : FastAnalogRead) (nv : ℚ),
      (s.sleepEnable = true → s.edgeSnapEnable = true →
        ((nv < (s.activityThreshold : ℚ) →
           edgeSnapValue s nv = 2 * nv - (s.activityThreshold : ℚ)) ∧
         ((s.activityThreshold : ℚ) ≤ nv →
           (s.analogResolution : ℚ) - nv < (s.activityThreshold : ℚ) →
           edgeSnapValue s nv = 2 * nv + (s.activityThreshold : ℚ) - (s.analogResolution : ℚ)) ∧
         ((s.activityThreshold : ℚ) ≤ nv →
           nv ≤ (s.analogResolution : ℚ) - (s.activityThreshold : ℚ) →
           edgeSnapValue s nv = nv))) ∧
      (¬(s.sleepEnable = true ∧ s.edgeSnapEnable = true) → edgeSnapValue s nv = nv) := by
  intro s nv
  constructor
  · intro hS hE
    have hb : (s.sleepEnable && s.edgeSnapEnable) = true := by rw [hS, hE]; rfl
    refine ⟨?_, ?_, ?_⟩
    · intro h
      simp only [edgeSnapValue]
      rw [if_pos hb, if_pos h]
      ring
    · intro h1 h2
      simp only [edgeSnapValue]
      rw [if_pos hb, if_neg (not_lt.mpr h1), if_pos (show _ < nv by linarith)]
      ring
    · intro h1 h2
      simp only [edgeSnapValue]
      rw [if_pos hb, if_neg (not_lt.mpr h1), if_neg (not_lt.mpr (by linarith))]
  · intro h
    have hb : (s.sleepEnable && s.edgeSnapEnable) = false := by
      cases hsE : s.sleepEnable <;> cases heE : s.edgeSnapEnable <;> simp_all
    simp only [edgeSnapValue]
    rw [if_neg (by simp [hb])]

/-- Witness for C6 at both edges, the middle, and a flag-off state. -/
def c6state : FastAnalogRead :=
  { sleepEnable := true, edgeSnapEnable := true, activityThreshold := 10,
    analogResolution := 1024, snapMultiplier := 1/2, smoothValue := 0,
    errorEMA := 0, sleeping := false, rawValue := 0, responsiveValue := 0,
    prevResponsiveValue := 0, responsiveValueHasChanged := false }

theorem edgeSnap_characterization_witness :
    edgeSnapValue c6state 3 = 2 * 3 - (c6state.activityThreshold : ℚ) ∧
    edgeSnapValue c6state 1020 =
      2 * 1020 + (c6state.activityThreshold : ℚ) - (c6state.analogResolution : ℚ) ∧
    edgeSnapValue c6state 500 = 500 :=
  ⟨((edgeSnap_characterization c6state 3).1 rfl rfl).1 (by norm_num [c6state]),
   ((edgeSnap_characterization c6state 1020).1 rfl rfl).2.1 (by norm_num [c6state])
     (by norm_num [c6state]),
   ((edgeSnap_characterization c6state 500).1 rfl rfl).2.2 (by norm_num [c6state])
     (by norm_num [c6state])⟩

/-! ### Claim C9: the multiplier clamp -/

/-- C9: setSnapMultiplier stores a multiplier in [0,1]; arguments above 1
store exactly 1, arguments below 0 store exactly 0, and in-range arguments
are stored unchanged. -/
theorem setSnapMultiplier_clamps :
    ∀ (s : FastAnalogRead) (x : ℚ),
      (0 ≤ (setSnapMultiplier s x).snapMultiplier ∧
        (setSnapMultiplier s x).snapMultiplier ≤ 1) ∧
      (1 < x → (setSnapMultiplier s x).snapMultiplier = 1) ∧
      (x < 0 → (setSnapMultiplier s x).snapMultiplier = 0) ∧
      (0 ≤ x → x ≤ 1 → (setSnapMultiplier s x).snapMultiplier = x) := by
  intro s x
  by_cases h1 : 1 < x
  · have hv : (setSnapMultiplier s x).snapMultiplier = 1 := by
      simp only [setSnapMultiplier]
      rw [if_pos h1]
    rw [hv]
    exact ⟨⟨by norm_num, le_rfl⟩, fun _ => rfl, fun h => by linarith, fun _ h => by linarith⟩
  · by_cases h2 : x < 0
    · have hv : (setSnapMultiplier s x).snapMultiplier = 0 := by
        simp only [setSnapMultiplier]
        rw [if_neg h1, if_pos h2]
      rw [hv]
      exact ⟨⟨le_rfl, by norm_num⟩, fun h => by linarith, fun _ => rfl, fun h _ => by linarith⟩
    · have hv : (setSnapMultiplier s x).snapMultiplier = x := by
        simp only [setSnapMultiplier]
        rw [if_neg h1, if_neg h2]
      rw [hv]
      exact ⟨⟨not_lt.mp h2, not_lt.mp h1⟩, fun h => by linarith, fun h => by linarith,
        fun _ _ => rfl⟩

/-- Witness for C9 at the spec's concrete inputs -5, 5 and 0.3. -/
def c9state : FastAnalogRead :=
  { sleepEnable := false, edgeSnapEnable := false, activityThreshold := 4,
    analogResolution := 1024, snapMultiplier := 1/2, smoothValue := 0,
    errorEMA := 0, sleeping := false, rawValue := 0, responsiveValue := 0,
    prevResponsiveValue := 0, responsiveValueHasChanged := false }

theorem setSnapMultiplier_clamps_witness :
    (setSnapMultiplier c9state (-5)).snapMultiplier = 0 ∧
    (setSnapMultiplier c9state 5).snapMultiplier = 1 ∧
    (setSnapMultiplier c9state (3/10)).snapMultiplier = 3/10 :=
  ⟨(setSnapMultiplier_clamps c9state (-5)).2.2.1 (by norm_num),
   (setSnapMultiplier_clamps c9state 5).2.1 (by norm_num),
   (setSnapMultiplier_clamps c9state (3/10)).2.2.2 (by norm_num) (by norm_num)⟩

/-! ### Claim C10: the changed flag -/

/-- C10: on every update call the changed flag is recomputed and is true
exactly when the integer output of this call differs from the output of the
immediately preceding call (kept in prevResponsiveValue). -/
theorem outputChanged_characterization :
    ∀ (s : FastAnalogRead) (raw : ℕ),
      (update s raw).prevResponsiveValue = s.responsiveValue ∧
      ((update s raw).responsiveValueHasChanged = true ↔
        (update s raw).responsiveValue ≠ s.responsiveValue) := by
  intro s raw
  refine ⟨update_prevResponsiveValue s raw, ?_⟩
  rw [update_responsiveValueHasChanged]
  exact decide_eq_true_iff

/-! ### Claim C4: the end-to-end scenario -/

/-- The spec's end-to-end scenario configuration: resolution 1024, snap
multiplier 0.01, sleep disabled, smooth value 512. -/
def c4state : FastAnalogRead :=
  { sleepEnable := false, edgeSnapEnable := false, activityThreshold := 4,
    analogResolution := 1024, snapMultiplier := 1/100, smoothValue := 512,
    errorEMA := 0, sleeping := false, rawValue := 0, responsiveValue := 512,
    prevResponsiveValue := 512, responsiveValueHasChanged := false }

/-- C4 counterexample: in the spec's scenario the update with raw value 600
returns 594 and leaves smoothValue at 27936/47 which is about 594.38, more
than 50 above the claimed output of about 543; so the claimed snap value
0.36 and output 543 do not match the code. -/
theorem scenario_output_is_594_not_543 :
    (update c4state 600).responsiveValue = 594 ∧
    (update c4state 600).smoothValue = 27936 / 47 ∧
    (543 : ℚ) + 2 < (update c4state 600).smoothValue ∧
    (543 : ℤ) + 2 < (update c4state 600).responsiveValue := by
  norm_num [update, getResponsiveValue, edgeSnapValue, sleepingNext, errorEMANext,
    smoothNext, diffOf, snapCurve, fixedGetInteger, c4state]

/-- C4 amended: in the scenario the single update computes diff = 88,
snap = snapCurve(0.88) = 44/47 (about 0.936), new
smoothValue = 512 + (44/47) * 88 (about 594.38), and returns the integer
594. -/
theorem scenario_amended :
    diffOf c4state (edgeSnapValue c4state (rawIn 600)) = 88 ∧
    snapCurve ((diffOf c4state (edgeSnapValue c4state (rawIn 600)) : ℚ) *
      c4state.snapMultiplier) = 44 / 47 ∧
    (update c4state 600).smoothValue = 512 + (44 / 47) * 88 ∧
    (update c4state 600).responsiveValue = 594 := by
  norm_num [update, getResponsiveValue, edgeSnapValue, sleepingNext, errorEMANext,
    smoothNext, diffOf, snapCurve, fixedGetInteger, rawIn, c4state]

/-! ### Claim C8: the one-unit dead band -/

/-- C8: on a non-sleeping update whose (possibly edge-snapped) input is
within one unit of smoothValue, the truncated deviation is 0, the snap is
snapCurve(0) = 0, and smoothValue is left exactly unchanged, so such states
are fixed points of the smoothing update. -/
theorem unit_deadband_fixed_point :
    ∀ (s : FastAnalogRead) (raw : ℕ),
      0 ≤ s.smoothValue → s.smoothValue ≤ (s.analogResolution : ℚ) - 1 →
      ¬(s.sleepEnable = true ∧ sleepCondB s raw = true) →
      |edgeSnapValue s (rawIn raw) - s.smoothValue| < 1 →
      diffOf s (edgeSnapValue s (rawIn raw)) = 0 ∧
      snapCurve ((diffOf s (edgeSnapValue s (rawIn raw)) : ℚ) * s.snapMultiplier) = 0 ∧
      (update s raw).smoothValue = s.smoothValue := by
  intro s raw h0 h1 hns hd
  have hdiff : diffOf s (edgeSnapValue s (rawIn raw)) = 0 := diffOf_eq_zero hd
  have hsnap : snapCurve ((diffOf s (edgeSnapValue s (rawIn raw)) : ℚ) * s.snapMultiplier) = 0 := by
    rw [hdiff]
    simp [snapCurve_zero]
  have hgate : (s.sleepEnable && sleepingNext s (edgeSnapValue s (rawIn raw))) = false := by
    cases hS : s.sleepEnable
    · simp
    · have hc : sleepCondB s raw = false := by
        cases hcb : sleepCondB s raw
        · rfl
        · exact absurd ⟨hS, hcb⟩ hns
      have h2 : sleepingNext s (edgeSnapValue s (rawIn raw)) = sleepCondB s raw := by
        simp [sleepingNext, sleepCondB, hS]
      simp [h2, hc]
  have hfix : smoothNext s (edgeSnapValue s (rawIn raw)) = s.smoothValue := by
    simp only [smoothNext]
    rw [hsnap]
    simp only [mul_zero, add_zero]
    rw [if_neg (not_lt.mpr h0), if_neg (not_lt.mpr h1)]
  exact ⟨hdiff, hsnap, by rw [update_smoothValue_awake hgate, hfix]⟩

/-- Witness for C8 at a concrete sleep-disabled state reading its own
smooth value back. -/
def c8state : FastAnalogRead :=
  { sleepEnable := false, edgeSnapEnable := false, activityThreshold := 4,
    analogResolution := 1024, snapMultiplier := 1/2, smoothValue := 100,
    errorEMA := 0, sleeping := false, rawValue := 0, responsiveValue := 100,
    prevResponsiveValue := 100, responsiveValueHasChanged := false }

theorem unit_deadband_fixed_point_witness :
    diffOf c8state (edgeSnapValue c8state (rawIn 100)) = 0 ∧
    snapCurve ((diffOf c8state (edgeSnapValue c8state (rawIn 100)) : ℚ) *
      c8state.snapMultiplier) = 0 ∧
    (update c8state 100).smoothValue = c8state.smoothValue :=
  unit_deadband_fixed_point c8state 100 (by norm_num [c8state])
    (by norm_num [c8state]) (by simp [c8state])
    (by norm_num [c8state, edgeSnapValue, rawIn])

/-! ### Claim C2: the sleep freeze -/

lemma sleep_step_frame {s : FastAnalogRead} {raw : ℕ} (hS : s.sleepEnable = true)
    (hc : sleepCondB s raw = true) :
    (update s raw).smoothValue = s.smoothValue ∧
    (update s raw).responsiveValue = fixedGetInteger s.smoothValue := by
  have h2 : sleepingNext s (edgeSnapValue s (rawIn raw)) = sleepCondB s raw := by
    simp [sleepingNext, sleepCondB, hS]
  have hgate : (s.sleepEnable && sleepingNext s (edgeSnapValue s (rawIn raw))) = true := by
    rw [hS, h2, hc]
    rfl
  exact ⟨update_smoothValue_sleep hgate, update_responsiveValue_sleep hgate⟩

lemma sleep_run_frame :
    ∀ (L : List ℕ) (s : FastAnalogRead), s.sleepEnable = true → allSleep s L = true →
      (run s L).smoothValue = s.smoothValue ∧
      (L ≠ [] → (run s L).responsiveValue = fixedGetInteger s.smoothValue) := by
  intro L
  induction L with
  | nil => exact fun s _ _ => ⟨rfl, fun h => absurd rfl h⟩
  | cons r rs ih =>
    intro s hS hall
    simp only [allSleep, Bool.and_eq_true] at hall
    obtain ⟨hc, hrest⟩ := hall
    have hframe := sleep_step_frame hS hc
    have hS' : (update s r).sleepEnable = true := by rw [update_sleepEnable, hS]
    have ihr := ih (update s r) hS' hrest
    have hrun : run s (r :: rs) = run (update s r) rs := rfl
    constructor
    · rw [hrun, ihr.1, hframe.1]
    · intro _
      cases rs with
      | nil => exact hframe.2
      | cons r2 rs2 =>
        rw [hrun, ihr.2 (by simp), hframe.1]

/-- C2: whenever sleep is enabled and the freshly updated error estimate is
below the activity threshold, the update leaves smoothValue unchanged and
returns the truncation of the unchanged smoothValue; over any sample
sequence whose calls all sleep, the returned output stays exactly the
truncation of the initial smoothValue. -/
theorem sleep_freeze :
    (∀ (s : FastAnalogRead) (raw : ℕ), s.sleepEnable = true → sleepCondB s raw = true →
       (update s raw).smoothValue = s.smoothValue ∧
       (update s raw).responsiveValue = fixedGetInteger s.smoothValue) ∧
    (∀ (s : FastAnalogRead) (L : List ℕ), s.sleepEnable = true → allSleep s L = true →
       (run s L).smoothValue = s.smoothValue ∧
       (L ≠ [] → (run s L).responsiveValue = fixedGetInteger s.smoothValue)) :=
  ⟨fun _ _ hS hc => sleep_step_frame hS hc, fun s L hS hall => sleep_run_frame L s hS hall⟩

/-- Witness for C2: a concrete stabilized sleep-enabled state fed two raw
samples within the activity threshold. -/
def c2state : FastAnalogRead :=
  { sleepEnable := true, edgeSnapEnable := false, activityThreshold := 5,
    analogResolution := 1024, snapMultiplier := 1/100, smoothValue := 100,
    errorEMA := 0, sleeping := true, rawValue := 100, responsiveValue := 100,
    prevResponsiveValue := 100, responsiveValueHasChanged := false }

theorem sleep_freeze_witness :
    (run c2state [100, 101]).smoothValue = c2state.smoothValue ∧
    (([100, 101] : List ℕ) ≠ [] →
      (run c2state [100, 101]).responsiveValue = fixedGetInteger c2state.smoothValue) :=
  sleep_freeze.2 c2state [100, 101] rfl
    (by norm_num [allSleep, sleepCondB, errorEMANext, edgeSnapValue, rawIn, update,
      getResponsiveValue, sleepingNext, smoothNext, diffOf, snapCurve, fixedGetInteger,
      abs_lt, c2state])

/-! ### Claim C1: the bounds invariant -/

lemma smoothNext_bounds (s : FastAnalogRead) (nv : ℚ) (hres : 1 ≤ s.analogResolution) :
    0 ≤ smoothNext s nv ∧ smoothNext s nv ≤ (s.analogResolution : ℚ) - 1 := by
  have hres' : (1 : ℚ) ≤ (s.analogResolution : ℚ) := by exact_mod_cast hres
  simp only [smoothNext]
  split
  · next h => exact ⟨le_rfl, by linarith⟩
  · next h1 =>
    split
    · next h2 => exact ⟨by linarith, le_rfl⟩
    · next h2 => exact ⟨not_lt.mp h1, not_lt.mp h2⟩

lemma update_smoothValue_bounds {s : FastAnalogRead} (raw : ℕ)
    (hres : 1 ≤ s.analogResolution) (h0 : 0 ≤ s.smoothValue)
    (h1 : s.smoothValue ≤ (s.analogResolution : ℚ) - 1) :
    0 ≤ (update s raw).smoothValue ∧
    (update s raw).smoothValue ≤ (s.analogResolution : ℚ) - 1 := by
  cases hgate : (s.sleepEnable && sleepingNext s (edgeSnapValue s (rawIn raw)))
  · rw [update_smoothValue_awake hgate]
    exact smoothNext_bounds s _ hres
  · rw [update_smoothValue_sleep hgate]
    exact ⟨h0, h1⟩

/-- C1: for every sequence of raw inputs in range and every configuration
with at least one representable output value, smoothValue stays within
[0, analogResolution - 1] after every update call: a sleeping call leaves it
unchanged and an awake call clamps it into that range. -/
theorem smoothValue_bounds_invariant :
    ∀ (s : FastAnalogRead) (raws : List ℕ),
      1 ≤ s.analogResolution →
      0 ≤ s.smoothValue → s.smoothValue ≤ (s.analogResolution : ℚ) - 1 →
      (∀ r ∈ raws, (r : ℤ) < s.analogResolution) →
      0 ≤ (run s raws).smoothValue ∧
      (run s raws).smoothValue ≤ (s.analogResolution : ℚ) - 1 := by
  intro s raws
  induction raws generalizing s with
  | nil => exact fun _ h0 h1 _ => ⟨h0, h1⟩
  | cons r rs ih =>
    intro hres h0 h1 hmem
    have hstep := update_smoothValue_bounds r hres h0 h1
    have hres' : 1 ≤ (update s r).analogResolution := by
      rw [update_analogResolution]; exact hres
    have h2 : (update s r).smoothValue ≤ ((update s r).analogResolution : ℚ) - 1 := by
      rw [update_analogResolution]; exact hstep.2
    have hmem' : ∀ x ∈ rs, (x : ℤ) < (update s r).analogResolution := by
      intro x hx
      rw [update_analogResolution]
      exact hmem x (List.mem_cons_of_mem _ hx)
    have hfin := ih (update s r) hres' hstep.1 h2 hmem'
    have hrun : run s (r :: rs) = run (update s r) rs := rfl
    refine ⟨by rw [hrun]; exact hfin.1, ?_⟩
    have h3 := hfin.2
    rw [update_analogResolution] at h3
    rw [hrun]
    exact h3

/-- Witness for C1: a concrete in-range start driven by two in-range raw
samples. -/
def c1state : FastAnalogRead :=
  { sleepEnable := false, edgeSnapEnable := false, activityThreshold := 4,
    analogResolution := 1024, snapMultiplier := 1/2, smoothValue := 512,
    errorEMA := 0, sleeping := false, rawValue := 0, responsiveValue := 512,
    prevResponsiveValue := 512, responsiveValueHasChanged := false }

theorem smoothValue_bounds_invariant_witness :
    0 ≤ (run c1state [4, 700]).smoothValue ∧
    (run c1state [4, 700]).smoothValue ≤ (c1state.analogResolution : ℚ) - 1 :=
  smoothValue_bounds_invariant c1state [4, 700] (by norm_num [c1state])
    (by norm_num [c1state]) (by norm_num [c1state])
    (by intro r hr; fin_cases hr <;> norm_num [c1state])

/-! ### Claim C7: behaviour under a constant input with sleep disabled -/

lemma smoothNext_fixed {s : FastAnalogRead} {nv : ℚ} (h0 : 0 ≤ s.smoothValue)
    (h1 : s.smoothValue ≤ (s.analogResolution : ℚ) - 1)
    (hd : |nv - s.smoothValue| < 1) :
    smoothNext s nv = s.smoothValue := by
  have hdiff : diffOf s nv = 0 := diffOf_eq_zero hd
  simp only [smoothNext]
  rw [hdiff]
  simp only [Int.cast_zero, zero_mul, snapCurve_zero, mul_zero, add_zero]
  rw [if_neg (not_lt.mpr h0), if_neg (not_lt.mpr h1)]

lemma noSleep_step_fixed (s : FastAnalogRead) (v : ℕ)
    (hE : s.sleepEnable = false) (hv16 : v < 65536)
    (h0 : 0 ≤ s.smoothValue) (h1 : s.smoothValue ≤ (s.analogResolution : ℚ) - 1)
    (hd : |(v : ℚ) - s.smoothValue| < 1) :
    (update s v).smoothValue = s.smoothValue := by
  have hvq : rawIn v = (v : ℚ) := by rw [rawIn, Nat.mod_eq_of_lt hv16]
  have hgate : (s.sleepEnable && sleepingNext s (edgeSnapValue s (rawIn v))) = false :=
    gate_false_of_sleep_disabled hE _
  have h := update_smoothValue_awake hgate
  rw [edgeSnapValue_of_sleep_disabled hE, hvq] at h
  rw [h]
  exact smoothNext_fixed h0 h1 hd

lemma noSleep_fixed_output (s : FastAnalogRead) (v : ℕ)
    (hE : s.sleepEnable = false) (hv16 : v < 65536)
    (h0 : 0 ≤ s.smoothValue) (h1 : s.smoothValue ≤ (s.analogResolution : ℚ) - 1)
    (hd : |(v : ℚ) - s.smoothValue| < 1) :
    (update s v).responsiveValue = fixedGetInteger s.smoothValue := by
  have hvq : rawIn v = (v : ℚ) := by rw [rawIn, Nat.mod_eq_of_lt hv16]
  have hgate : (s.sleepEnable && sleepingNext s (edgeSnapValue s (rawIn v))) = false :=
    gate_false_of_sleep_disabled hE _
  have h := update_responsiveValue_awake hgate
  rw [edgeSnapValue_of_sleep_disabled hE, hvq] at h
  rw [h, smoothNext_fixed h0 h1 hd]

lemma noSleep_step (s : FastAnalogRead) (v : ℕ)
    (hE : s.sleepEnable = false)
    (hm0 : 0 ≤ s.snapMultiplier) (hm1 : s.snapMultiplier ≤ 1)
    (hv16 : v < 65536)
    (hv1 : (v : ℚ) ≤ (s.analogResolution : ℚ) - 1)
    (h0 : 0 ≤ s.smoothValue) (h1 : s.smoothValue ≤ (s.analogResolution : ℚ) - 1) :
    0 ≤ (update s v).smoothValue ∧
    (update s v).smoothValue ≤ (s.analogResolution : ℚ) - 1 ∧
    |(v : ℚ) - (update s v).smoothValue| =
      |(v : ℚ) - s.smoothValue| *
        (1 - snapCurve ((diffOf s (v : ℚ) : ℚ) * s.snapMultiplier)) := by
  have hvq : rawIn v = (v : ℚ) := by rw [rawIn, Nat.mod_eq_of_lt hv16]
  have hup : (update s v).smoothValue = smoothNext s (v : ℚ) := by
    have hgate : (s.sleepEnable && sleepingNext s (edgeSnapValue s (rawIn v))) = false :=
      gate_false_of_sleep_disabled hE _
    have h := update_smoothValue_awake hgate
    rw [edgeSnapValue_of_sleep_disabled hE, hvq] at h
    exact h
  set snap := snapCurve ((diffOf s (v : ℚ) : ℚ) * s.snapMultiplier) with hsnap
  have hd0 : (0 : ℚ) ≤ (diffOf s (v : ℚ) : ℚ) := by exact_mod_cast diffOf_nonneg s (v : ℚ)
  have hs0 : 0 ≤ snap := snapCurve_nonneg (mul_nonneg hd0 hm0)
  have hs1 : snap ≤ 1 := snapCurve_le_one _
  have hv0 : (0 : ℚ) ≤ (v : ℚ) := Nat.cast_nonneg v
  have hb0 : 0 ≤ s.smoothValue + ((v : ℚ) - s.smoothValue) * snap := by
    nlinarith [mul_nonneg h0 (sub_nonneg.mpr hs1), mul_nonneg hv0 hs0]
  have hb1 : s.smoothValue + ((v : ℚ) - s.smoothValue) * snap ≤ (s.analogResolution : ℚ) - 1 := by
    nlinarith [mul_nonneg (sub_nonneg.mpr h1) (sub_nonneg.mpr hs1),
      mul_nonneg (sub_nonneg.mpr hv1) hs0]
  have hsn : smoothNext s (v : ℚ) = s.smoothValue + ((v : ℚ) - s.smoothValue) * snap := by
    simp only [smoothNext]
    rw [← hsnap]
    rw [if_neg (not_lt.mpr hb0), if_neg (not_lt.mpr hb1)]
  refine ⟨by rw [hup, hsn]; exact hb0, by rw [hup, hsn]; exact hb1, ?_⟩
  rw [hup, hsn]
  have h3 : (v : ℚ) - (s.smoothValue + ((v : ℚ) - s.smoothValue) * snap) =
      ((v : ℚ) - s.smoothValue) * (1 - snap) := by ring
  rw [h3, abs_mul, abs_of_nonneg (by linarith : (0 : ℚ) ≤ 1 - snap)]

lemma noSleep_step_contract (s : FastAnalogRead) (v : ℕ)
    (hE : s.sleepEnable = false)
    (hm0 : 0 < s.snapMultiplier) (hm1 : s.snapMultiplier ≤ 1)
    (hv16 : v < 65536)
    (hv1 : (v : ℚ) ≤ (s.analogResolution : ℚ) - 1)
    (h0 : 0 ≤ s.smoothValue) (h1 : s.smoothValue ≤ (s.analogResolution : ℚ) - 1)
    (hd : 1 ≤ |(v : ℚ) - s.smoothValue|) :
    |(v : ℚ) - (update s v).smoothValue| ≤
      |(v : ℚ) - s.smoothValue| - snapCurve s.snapMultiplier := by
  obtain ⟨-, -, habs⟩ := noSleep_step s v hE (le_of_lt hm0) hm1 hv16 hv1 h0 h1
  have hd1 : (1 : ℚ) ≤ (diffOf s (v : ℚ) : ℚ) := by exact_mod_cast one_le_diffOf hd
  have hxm : s.snapMultiplier ≤ (diffOf s (v : ℚ) : ℚ) * s.snapMultiplier := by nlinarith
  have hmono : snapCurve s.snapMultiplier ≤
      snapCurve ((diffOf s (v : ℚ) : ℚ) * s.snapMultiplier) :=
    snapCurve_mono (le_of_lt hm0) hxm
  have hs1 : snapCurve ((diffOf s (v : ℚ) : ℚ) * s.snapMultiplier) ≤ 1 := snapCurve_le_one _
  have hc0 : 0 ≤ snapCurve s.snapMultiplier := snapCurve_nonneg (le_of_lt hm0)
  rw [habs]
  nlinarith [mul_le_mul_of_nonneg_left hmono (abs_nonneg ((v : ℚ) - s.smoothValue)),
    mul_le_mul_of_nonneg_right hd hc0]

/-- C7 amended: with sleep disabled and a positive in-range snap multiplier,
feeding the same in-range raw value v repeatedly drives smoothValue, in
finitely many calls, into the filter's one-unit dead band around v, after
which smoothValue never changes again and the changed flag is false on every
later call.  (The original claim of convergence to v itself fails: the
filter stops as soon as the truncated deviation reaches 0.) -/
theorem constant_input_settles :
    ∀ (s : FastAnalogRead) (v : ℕ),
      s.sleepEnable = false →
      0 < s.snapMultiplier → s.snapMultiplier ≤ 1 →
      v < 65536 →
      (v : ℚ) ≤ (s.analogResolution : ℚ) - 1 →
      0 ≤ s.smoothValue → s.smoothValue ≤ (s.analogResolution : ℚ) - 1 →
      ∃ N, (∀ k, ((fun t => update t v)^[N + k] s).smoothValue =
                  ((fun t => update t v)^[N] s).smoothValue) ∧
           |(v : ℚ) - ((fun t => update t v)^[N] s).smoothValue| < 1 ∧
           (∀ k, ((fun t => update t v)^[N + 1 + k] s).responsiveValueHasChanged = false) := by
  intro s v hE hm0 hm1 hv16 hv1 h0 h1
  have hcfg : ∀ n, ((fun t => update t v)^[n] s).sleepEnable = false ∧
      ((fun t => update t v)^[n] s).snapMultiplier = s.snapMultiplier ∧
      ((fun t => update t v)^[n] s).analogResolution = s.analogResolution := by
    intro n
    induction n with
    | zero => exact ⟨hE, rfl, rfl⟩
    | succ n ihn =>
      simp only [Function.iterate_succ_apply']
      exact ⟨(update_sleepEnable _ _).trans ihn.1,
        (update_snapMultiplier _ _).trans ihn.2.1,
        (update_analogResolution _ _).trans ihn.2.2⟩
  have hbounds : ∀ n, 0 ≤ ((fun t => update t v)^[n] s).smoothValue ∧
      ((fun t => update t v)^[n] s).smoothValue ≤ (s.analogResolution : ℚ) - 1 := by
    intro n
    induction n with
    | zero => exact ⟨h0, h1⟩
    | succ n ihn =>
      obtain ⟨hcE, hcM, hcR⟩ := hcfg n
      simp only [Function.iterate_succ_apply']
      have hv1' : (v : ℚ) ≤ ((((fun t => update t v)^[n] s).analogResolution : ℚ)) - 1 := by
        rw [hcR]; exact hv1
      have h1' : ((fun t => update t v)^[n] s).smoothValue ≤
          ((((fun t => update t v)^[n] s).analogResolution : ℚ)) - 1 := by
        rw [hcR]; exact ihn.2
      have hm0' : 0 ≤ ((fun t => update t v)^[n] s).snapMultiplier := by
        rw [hcM]; exact le_of_lt hm0
      have hm1' : ((fun t => update t v)^[n] s).snapMultiplier ≤ 1 := by
        rw [hcM]; exact hm1
      obtain ⟨b0, b1, -⟩ := noSleep_step _ v hcE hm0' hm1' hv16 hv1' ihn.1 h1'
      rw [hcR] at b1
      exact ⟨b0, b1⟩
  have hdich : ∀ n, |(v : ℚ) - ((fun t => update t v)^[n] s).smoothValue| < 1 ∨
      |(v : ℚ) - ((fun t => update t v)^[n] s).smoothValue| ≤
        |(v : ℚ) - s.smoothValue| - (n : ℚ) * snapCurve s.snapMultiplier := by
    intro n
    induction n with
    | zero => right; simp
    | succ n ihn =>
      obtain ⟨hcE, hcM, hcR⟩ := hcfg n
      have hb := hbounds n
      have h1' : ((fun t => update t v)^[n] s).smoothValue ≤
          ((((fun t => update t v)^[n] s).analogResolution : ℚ)) - 1 := by
        rw [hcR]; exact hb.2
      by_cases hdn : |(v : ℚ) - ((fun t => update t v)^[n] s).smoothValue| < 1
      · left
        simp only [Function.iterate_succ_apply']
        rw [noSleep_step_fixed _ v hcE hv16 hb.1 h1' hdn]
        exact hdn
      · rcases ihn with h | h
        · exact absurd h hdn
        · right
          have hd1 : 1 ≤ |(v : ℚ) - ((fun t => update t v)^[n] s).smoothValue| :=
            not_lt.mp hdn
          have hv1' : (v : ℚ) ≤ ((((fun t => update t v)^[n] s).analogResolution : ℚ)) - 1 := by
            rw [hcR]; exact hv1
          have hco := noSleep_step_contract _ v hcE (by rw [hcM]; exact hm0)
            (by rw [hcM]; exact hm1) hv16 hv1' hb.1 h1' hd1
          rw [hcM] at hco
          simp only [Function.iterate_succ_apply']
          push_cast
          linarith
  obtain ⟨K, hK⟩ :=
    exists_nat_gt ((|(v : ℚ) - s.smoothValue| - 1) / snapCurve s.snapMultiplier)
  have hc0 : 0 < snapCurve s.snapMultiplier := snapCurve_pos hm0
  have hKc : |(v : ℚ) - s.smoothValue| - 1 < (K : ℚ) * snapCurve s.snapMultiplier := by
    rw [div_lt_iff₀ hc0] at hK
    linarith
  have hdK : |(v : ℚ) - ((fun t => update t v)^[K] s).smoothValue| < 1 := by
    rcases hdich K with h | h
    · exact h
    · linarith
  have hstable : ∀ j, ((fun t => update t v)^[K + j] s).smoothValue =
      ((fun t => update t v)^[K] s).smoothValue := by
    intro j
    induction j with
    | zero => rfl
    | succ j ihj =>
      obtain ⟨hcE, hcM, hcR⟩ := hcfg (K + j)
      have hb := hbounds (K + j)
      have h1' : ((fun t => update t v)^[K + j] s).smoothValue ≤
          ((((fun t => update t v)^[K + j] s).analogResolution : ℚ)) - 1 := by
        rw [hcR]; exact hb.2
      have hd' : |(v : ℚ) - ((fun t => update t v)^[K + j] s).smoothValue| < 1 := by
        rw [ihj]; exact hdK
      rw [show K + (j + 1) = (K + j) + 1 from rfl, Function.iterate_succ_apply']
      rw [noSleep_step_fixed _ v hcE hv16 hb.1 h1' hd']
      exact ihj
  have houtput : ∀ j, ((fun t => update t v)^[K + 1 + j] s).responsiveValue =
      fixedGetInteger (((fun t => update t v)^[K] s).smoothValue) := by
    intro j
    obtain ⟨hcE, hcM, hcR⟩ := hcfg (K + j)
    have hb := hbounds (K + j)
    have h1' : ((fun t => update t v)^[K + j] s).smoothValue ≤
        ((((fun t => update t v)^[K + j] s).analogResolution : ℚ)) - 1 := by
      rw [hcR]; exact hb.2
    have hd' : |(v : ℚ) - ((fun t => update t v)^[K + j] s).smoothValue| < 1 := by
      rw [hstable j]; exact hdK
    rw [show K + 1 + j = (K + j) + 1 from by omega, Function.iterate_succ_apply']
    rw [noSleep_fixed_output _ v hcE hv16 hb.1 h1' hd', hstable j]
  have hchanged : ∀ j, ((fun t => update t v)^[K + 2 + j] s).responsiveValueHasChanged
      = false := by
    intro j
    rw [show K + 2 + j = (K + 1 + j) + 1 from by omega, Function.iterate_succ_apply']
    rw [update_responsiveValueHasChanged]
    have e1 : (update ((fun t => update t v)^[K + 1 + j] s) v).responsiveValue =
        fixedGetInteger (((fun t => update t v)^[K] s).smoothValue) := by
      have h2 := houtput (j + 1)
      rw [show K + 1 + (j + 1) = (K + 1 + j) + 1 from by omega,
        Function.iterate_succ_apply'] at h2
      exact h2
    rw [e1, houtput j]
    simp
  refine ⟨K + 1, ?_, ?_, ?_⟩
  · intro k
    have ha := hstable (1 + k)
    have hb' := hstable 1
    rw [show K + 1 + k = K + (1 + k) from by omega]
    rw [ha, hb']
  · rw [hstable 1]
    exact hdK
  · intro k
    rw [show K + 1 + 1 + k = K + 2 + k from by omega]
    exact hchanged k

/-- Witness for the amended C7 at a concrete sleep-disabled configuration. -/
def c7wstate : FastAnalogRead :=
  { sleepEnable := false, edgeSnapEnable := false, activityThreshold := 4,
    analogResolution := 1024, snapMultiplier := 1/2, smoothValue := 512,
    errorEMA := 0, sleeping := false, rawValue := 0, responsiveValue := 512,
    prevResponsiveValue := 512, responsiveValueHasChanged := false }

theorem constant_input_settles_witness :
    ∃ N, (∀ k, ((fun t => update t 600)^[N + k] c7wstate).smoothValue =
                ((fun t => update t 600)^[N] c7wstate).smoothValue) ∧
         |(600 : ℚ) - ((fun t => update t 600)^[N] c7wstate).smoothValue| < 1 ∧
         (∀ k, ((fun t => update t 600)^[N + 1 + k] c7wstate).responsiveValueHasChanged
            = false) :=
  constant_input_settles c7wstate 600 rfl (by norm_num [c7wstate])
    (by norm_num [c7wstate]) (by norm_num) (by norm_num [c7wstate])
    (by norm_num [c7wstate]) (by norm_num [c7wstate])

/-- C7 counterexample: with sleep disabled, resolution 1024, snap multiplier
0.01 and smoothValue parked at 599.5, every repetition of the in-range raw
value 600 is a fixed point of update, so smoothValue stays exactly half a
unit away from 600 forever and never converges to 600 within any tolerance
below one half. -/
def c7ce : FastAnalogRead :=
  { sleepEnable := false, edgeSnapEnable := false, activityThreshold := 4,
    analogResolution := 1024, snapMultiplier := 1/100, smoothValue := 1199/2,
    errorEMA := 0, sleeping := false, rawValue := 0, responsiveValue := 599,
    prevResponsiveValue := 599, responsiveValueHasChanged := false }

theorem constant_input_does_not_converge :
    ¬ ∃ N, |(600 : ℚ) - ((fun t => update t 600)^[N] c7ce).smoothValue| < 1/2 := by
  have hfix : ∀ n, ((fun t => update t 600)^[n] c7ce).smoothValue = 1199/2 ∧
      ((fun t => update t 600)^[n] c7ce).sleepEnable = false ∧
      ((fun t => update t 600)^[n] c7ce).analogResolution = 1024 := by
    intro n
    induction n with
    | zero => exact ⟨rfl, rfl, rfl⟩
    | succ n ihn =>
      obtain ⟨hsm, hE, hres⟩ := ihn
      simp only [Function.iterate_succ_apply']
      refine ⟨?_, (update_sleepEnable _ _).trans hE, (update_analogResolution _ _).trans hres⟩
      rw [noSleep_step_fixed _ 600 hE (by norm_num) (by rw [hsm]; norm_num)
        (by rw [hsm, hres]; norm_num)
        (by rw [hsm]; rw [abs_lt]; constructor <;> norm_num), hsm]
  rintro ⟨N, hN⟩
  rw [(hfix N).1] at hN
  rw [show (600 : ℚ) - 1199/2 = 1/2 by norm_num] at hN
  rw [abs_of_nonneg (by norm_num : (0 : ℚ) ≤ 1/2)] at hN
  exact lt_irrefl _ hN
